import Mathlib

/-!
Verification development for the coeus trading-analysis core.

Shallow embedding conventions:
* TypeScript `number` values are modelled as rationals (`ℚ`); the code never
  relies on floating-point rounding for the properties proved here.
* ISO-8601 timestamp strings (compared lexicographically in the source, which
  is order-isomorphic to comparing the instants themselves) are modelled as
  naturals.
* Optional (`?:`) fields are modelled as `Option`; a JavaScript falsiness test
  `!x` on an optional number is `x = none ∨ x = some 0`, written via
  `x.getD 0 = 0`.
* External library callbacks (the optional `format` argument threaded through
  the indicator functions, and `mathjs`'s `std`) are modelled as explicit
  function parameters, since their code is not part of this repository.
* `Array.prototype.sort` with the source's comparator
  `(a, b) => (a.ratio.rating > b.ratio.rating ? -1 : 1)` is modelled as a
  stable sort (`List.insertionSort`) with the total descending-rating
  preorder: for this comparator shape (negative exactly when the first
  rating is larger, positive for ties) the engine's stable TimSort keeps
  tied elements in input order, which is exactly what the stable insertion
  sort does.
-/

namespace Coeus

/-! ## Ranking data model (src/core/rank.ts, src/core/indicators) -/

/-- Last MACD value/signal pair (`LastMACD` of src/core/indicators/ma.ts). -/
structure LastMACD where
  value : ℚ
  signal : ℚ
deriving DecidableEq

/-- Last moving-average values per window (`LastMAValues` of
src/core/indicators/ma.ts); a missing field is an indicator whose window did
not fit in the data. -/
structure LastMAValues where
  nine : Option ℚ := none
  twelve : Option ℚ := none
  twentysix : Option ℚ := none
  fifty : Option ℚ := none
  twohundred : Option ℚ := none
deriving DecidableEq

/-- Per-pair indicator bundle (`Indicators` of src/core/indicators/index.ts). -/
structure Indicators where
  rsi : ℚ
  macd : LastMACD
  sma : LastMAValues
  ema : LastMAValues
deriving DecidableEq

/-- The `ratio` sub-object of a `ProductRanking` (src/core/rank.ts). -/
structure RatioValues where
  rating : ℚ
  close : ℚ
  diff : ℚ
  volume : ℚ
deriving DecidableEq

/-- The `cov` sub-object of a ranking's `last` block (src/core/rank.ts). -/
structure CovValues where
  close : ℚ
  volume : ℚ
deriving DecidableEq

/-- The `last` sub-object of a `ProductRanking` (src/core/rank.ts). -/
structure LastValues where
  volume : ℚ
  volumeAvg : ℚ
  close : ℚ
  closeAvg : ℚ
  high : ℚ
  low : ℚ
  cov : CovValues
deriving DecidableEq

/-- A per-pair ranking record (`ProductRanking` of src/core/rank.ts, the
version whose ranking carries an `indicators` bundle). -/
structure ProductRanking where
  productId : String
  ranking : Int
  dataPoints : ℚ
  movement : ℚ
  indicators : Indicators
  ratio : RatioValues
  last : LastValues
deriving DecidableEq

/-- The sort filter (`SortFilter` of src/core/rank.ts): an absent optional
boolean and `false` behave identically under the source's truthiness tests,
so the four flags are plain booleans; `count` stays optional because `0`,
absent and negative values all skip the truncation. -/
structure SortFilter where
  count : Option Int := none
  movement : Bool := false
  close : Bool := false
  diff : Bool := false
  volume : Bool := false
deriving DecidableEq

/-- The descending-rating preorder used by `sortRankings`' comparator. -/
def ratingGe (a b : ProductRanking) : Prop :=
  b.ratio.rating ≤ a.ratio.rating

instance : DecidableRel ratingGe := fun a b =>
  inferInstanceAs (Decidable (b.ratio.rating ≤ a.ratio.rating))

instance : IsTotal ProductRanking ratingGe :=
  ⟨fun a b => le_total b.ratio.rating a.ratio.rating⟩

instance : IsTrans ProductRanking ratingGe :=
  ⟨fun _ _ _ h h' => le_trans h' h⟩

/-- The rank-assignment loop of `sortRankings`
(`for (let i = 0; i < s.length; i++) s[i].ranking = i + 1`), started at 1. -/
def assignRanks : Int → List ProductRanking → List ProductRanking
  | _, [] => []
  | n, r :: rest => { r with ranking := n } :: assignRanks (n + 1) rest

/-- The four truthiness-guarded filter passes at the top of `sortRankings`
(src/core/rank.ts lines 261-264), in source order. -/
def applyFlagFilters (filter : SortFilter) (rankings : List ProductRanking) :
    List ProductRanking :=
  let s := rankings
  let s := if filter.close then s.filter fun r => 1 < r.ratio.close else s
  let s := if filter.diff then s.filter fun r => 1 < r.ratio.diff else s
  let s := if filter.volume then s.filter fun r => 1 < r.ratio.volume else s
  if filter.movement then s.filter fun r => 1 < r.movement else s

/-- The truncation step of `sortRankings`
(`if (filter.count && filter.count > 0) s = s.slice(0, filter.count)`):
an absent, zero (falsy) or non-positive count skips the truncation. -/
def truncateCount (count : Option Int) (s : List ProductRanking) :
    List ProductRanking :=
  match count with
  | some c => if 0 < c then s.take c.toNat else s
  | none => s

/-- `sortRankings` of src/core/rank.ts (lines 256-271): flag filters, then the
descending-rating sort, then the positive-count truncation, then dense
1-based rank assignment. -/
def sortRankings (rankings : List ProductRanking) (filter : SortFilter) :
    List ProductRanking :=
  assignRanks 1
    (truncateCount filter.count
      ((applyFlagFilters filter rankings).insertionSort ratingGe))

/-! ## Spec-side restatement of the sorting pipeline -/

/-- A record passes every enabled boolean flag of the filter: the conjunction
of the four threshold tests, each demanded only when its flag is set (the
conjuncts are ordered the way the source's successive filter passes
compose). -/
def passesFilter (filter : SortFilter) (r : ProductRanking) : Bool :=
  (!filter.movement || decide (1 < r.movement)) &&
    ((!filter.volume || decide (1 < r.ratio.volume)) &&
      ((!filter.diff || decide (1 < r.ratio.diff)) &&
        (!filter.close || decide (1 < r.ratio.close))))

/-- The sorting pipeline as the spec words it, with a single filtering pass:
drop records failing any enabled flag, stable-sort by descending rating,
truncate to a positive count, assign dense 1-based ranks. -/
def sortRankingsSpec (rankings : List ProductRanking) (filter : SortFilter) :
    List ProductRanking :=
  assignRanks 1
    (truncateCount filter.count
      ((rankings.filter (passesFilter filter)).insertionSort ratingGe))

/-- RSI threshold considered overbought (src/core/indicators/index.ts). -/
def RSI_OVERBOUGHT : ℚ := 70

/-- RSI threshold considered oversold (src/core/indicators/index.ts). -/
def RSI_OVERSOLD : ℚ := 30

/-- The filter shape the spec describes for `sortRankings`: the four flags the
code has plus two RSI-threshold flags the code's `SortFilter` does not have.
Modelled from the spec for comparison with the source's `SortFilter`. -/
structure SortFilterClaim where
  count : Option Int := none
  movement : Bool := false
  close : Bool := false
  diff : Bool := false
  volume : Bool := false
  overbought : Bool := false
  oversold : Bool := false
deriving DecidableEq

/-- Forgetting the two RSI flags maps the spec's filter onto the code's. -/
def SortFilterClaim.project (f : SortFilterClaim) : SortFilter :=
  { count := f.count, movement := f.movement, close := f.close,
    diff := f.diff, volume := f.volume }

/-- A record passes the spec's six filter flags, the two RSI-threshold flags
included. Modelled from the spec. -/
def passesFilterClaim (f : SortFilterClaim) (r : ProductRanking) : Bool :=
  passesFilter f.project r &&
    ((!f.overbought || decide (RSI_OVERBOUGHT < r.indicators.rsi)) &&
      (!f.oversold || decide (r.indicators.rsi < RSI_OVERSOLD)))

/-- The sorting pipeline exactly as the claim words it, six flags included.
Modelled from the spec. -/
def sortRankingsClaim (rankings : List ProductRanking) (f : SortFilterClaim) :
    List ProductRanking :=
  assignRanks 1
    (truncateCount f.count
      ((rankings.filter (passesFilterClaim f)).insertionSort ratingGe))

/-! ## Candle cache (src/core/candle.ts) -/

/-- A stored candle (`SimpleCandle` of src/models/candle.ts). The source field
`open` is rendered `openPrice` (`open` is a Lean keyword); `openTimeInISO`
holds the timestamp as a natural, order-isomorphic to the source's
lexicographically compared ISO string. -/
structure SimpleCandle where
  openPrice : ℚ
  close : ℚ
  high : ℚ
  low : ℚ
  volume : ℚ
  openTimeInISO : Nat
deriving DecidableEq, Inhabited

/-- The first phase of `combineCandles` (src/core/candle.ts lines 72-79):
when new candles arrived, append them and, past `maxCandles`, shift the
array from the front (`splice(0, length - maxCandles)`); with no new candles
nothing happens, the cap included. -/
def capCandles (oldCandles newCandles : List SimpleCandle)
    (maxCandles : Nat) : List SimpleCandle :=
  if 0 < newCandles.length then
    if maxCandles < (oldCandles ++ newCandles).length then
      (oldCandles ++ newCandles).drop
        ((oldCandles ++ newCandles).length - maxCandles)
    else oldCandles ++ newCandles
  else oldCandles

/-- The second phase of `combineCandles` (src/core/candle.ts lines 82-85):
when the first candle is at or before `oldestTs`, find the first strictly
newer candle and drop everything before it; `findIndex` returning `-1`
(no newer candle at all) leaves the array untouched. -/
def dropOutdated (candles : List SimpleCandle) (oldestTs : Nat) :
    List SimpleCandle :=
  match candles.head? with
  | some c0 =>
    if c0.openTimeInISO ≤ oldestTs then
      match candles.findIdx? fun c => oldestTs < c.openTimeInISO with
      | some index => candles.drop index
      | none => candles
    else candles
  | none => candles

/-- `combineCandles` of src/core/candle.ts (lines 65-88): the conditional
append-and-cap phase followed by the outdated-candle drop. -/
def combineCandles (oldCandles newCandles : List SimpleCandle)
    (oldestTs : Nat) (maxCandles : Nat) : List SimpleCandle :=
  dropOutdated (capCandles oldCandles newCandles maxCandles) oldestTs

/-! ## Bucket aggregation (src/core/bucket.ts: `findPrev`, `candleProcessor`) -/

/-- A time bucket holding the raw candles assigned to it (`CandleBucket`). -/
structure CandleBucket where
  timestampISO : Nat
  candles : List SimpleCandle
deriving DecidableEq, Inhabited

/-- Price aggregates of a compiled bucket (the `price` block of
`BucketData`). -/
structure PriceData where
  closeAvg : ℚ
  diffAvg : ℚ
  low : ℚ
  high : ℚ
  close : ℚ
  cv : ℚ
deriving DecidableEq

/-- Volume aggregates of a compiled bucket (the `volume` block of
`BucketData`). -/
structure VolumeData where
  total : ℚ
  avg : ℚ
  cv : ℚ
deriving DecidableEq

/-- Snapshot of a bucket's first-in-order candle (the `lastCandle` block of
`BucketData`). -/
structure LastCandleData where
  close : ℚ
  low : ℚ
  high : ℚ
  volume : ℚ
deriving DecidableEq

/-- A compiled bucket (`BucketData` of src/core/bucket.ts). -/
structure BucketData where
  timestampISO : Nat
  dataPoints : Nat
  price : PriceData
  volume : VolumeData
  lastCandle : LastCandleData
deriving DecidableEq

/-- `newBucketData` of src/core/bucket.ts: a blank bucket, `-1` sentinels in
the price fields. -/
def newBucketData (timestamp : Nat) : BucketData :=
  { timestampISO := timestamp
    dataPoints := 0
    price := { closeAvg := -1, diffAvg := -1, low := -1, high := -1,
               close := -1, cv := -1 }
    volume := { total := 0, avg := 0, cv := -1 }
    lastCandle := { close := -1, low := -1, high := -1, volume := 0 } }

/-- `findPrev` of src/core/bucket.ts (lines 55-64): walk from `pos` down to 0
and return the first bucket with candles. -/
def findPrev (values : List CandleBucket) : Nat → Option CandleBucket
  | 0 =>
    match values[0]? with
    | some b => if 0 < b.candles.length then some b else none
    | none => none
  | p + 1 =>
    match values[p + 1]? with
    | some b => if 0 < b.candles.length then some b else findPrev values p
    | none => findPrev values p

/-- The per-bucket compilation in the body of `candleProcessor`'s loop: the
high/low/total folds over the bucket's candles, then the averages, the
first-candle snapshot and the coefficients of variation, with zero fills
where `missingData` (a backfilled bucket) demands them. `stdf` stands for
`mathjs`'s `std`, an external library function. -/
def compileBucket (stdf : List ℚ → ℚ) (timestampISO : Nat)
    (candles : List SimpleCandle) (missingData : Bool) : BucketData :=
  match candles with
  | [] => newBucketData timestampISO
  | c0 :: _ =>
    let highV := candles.foldl (fun h c => if h < c.high then c.high else h) (-1)
    let lowV := candles.foldl (fun l c => if l < 0 ∨ c.low < l then c.low else l) (-1)
    let totalDiff := (candles.map fun c => c.high - c.low).sum
    let totalClose := (candles.map fun c => c.close).sum
    let totalVolume := (candles.map fun c => c.volume).sum
    let n : ℚ := candles.length
    let closeAvg := if missingData then c0.close else totalClose / n
    let volumeAvg := if missingData then 0 else totalVolume / n
    { timestampISO := timestampISO
      dataPoints := if missingData then 1 else candles.length
      price :=
        { closeAvg := closeAvg
          diffAvg := if missingData then 0 else totalDiff / n
          low := lowV
          high := highV
          close := c0.close
          cv := if missingData then 0 else stdf (candles.map fun c => c.close) / closeAvg }
      volume :=
        { total := if missingData then 0 else totalVolume
          avg := volumeAvg
          cv := if missingData then 0 else stdf (candles.map fun c => c.volume) / volumeAvg }
      lastCandle :=
        { close := c0.close
          low := if missingData then c0.close else c0.low
          high := if missingData then c0.close else c0.high
          volume := if missingData then 0 else c0.volume } }

/-- The index-driven loop of `candleProcessor` (src/core/bucket.ts lines
209-270) from position `i` on: an empty bucket is backfilled from
`findPrev`'s bucket with `missingData` set, or skipped when `findPrev` finds
nothing. -/
def processorGo (stdf : List ℚ → ℚ) (candleBuckets : List CandleBucket)
    (i : Nat) : List BucketData :=
  if h : i < candleBuckets.length then
    let cb := candleBuckets.get ⟨i, h⟩
    if cb.candles.length = 0 then
      match findPrev candleBuckets i with
      | some prevBucket =>
        if 0 < prevBucket.candles.length then
          compileBucket stdf cb.timestampISO prevBucket.candles true ::
            processorGo stdf candleBuckets (i + 1)
        else processorGo stdf candleBuckets (i + 1)
      | none => processorGo stdf candleBuckets (i + 1)
    else
      compileBucket stdf cb.timestampISO cb.candles false ::
        processorGo stdf candleBuckets (i + 1)
  else []
termination_by candleBuckets.length - i

/-- `candleProcessor` of src/core/bucket.ts: process every bucket in order. -/
def candleProcessor (stdf : List ℚ → ℚ)
    (candleBuckets : List CandleBucket) : List BucketData :=
  processorGo stdf candleBuckets 0

/-- The backfill pipeline as the spec words it, carrying the nearest earlier
non-empty bucket along the traversal: a populated bucket is compiled from its
own candles, an empty one copies the carried bucket's candle set (with the
reduced-confidence flag) or is dropped when there is none yet. -/
def backfillSpecGo (stdf : List ℚ → ℚ) :
    Option CandleBucket → List CandleBucket → List BucketData
  | _, [] => []
  | prev, cb :: rest =>
    if cb.candles.length = 0 then
      match prev with
      | some p =>
        compileBucket stdf cb.timestampISO p.candles true ::
          backfillSpecGo stdf prev rest
      | none => backfillSpecGo stdf prev rest
    else
      compileBucket stdf cb.timestampISO cb.candles false ::
        backfillSpecGo stdf (some cb) rest

/-- The spec-side bucket processor: no bucket seen yet at the start. -/
def candleProcessorSpec (stdf : List ℚ → ℚ)
    (candleBuckets : List CandleBucket) : List BucketData :=
  backfillSpecGo stdf none candleBuckets

/-- The nearest earlier non-empty bucket: the last bucket with candles among
the first `i`. -/
def lastNonempty (candleBuckets : List CandleBucket) (i : Nat) :
    Option CandleBucket :=
  (candleBuckets.take i).reverse.find? fun b => 0 < b.candles.length

/-! ## Moving averages and MACD (src/core/indicators/ma.ts, macd.ts) -/

/-- `mathjs`'s arithmetic mean, as the source uses it on non-empty slices. -/
def mean (l : List ℚ) : ℚ := l.sum / l.length

/-- Apply the source's optional `format` callback. -/
def applyFormat (format : Option (ℚ → ℚ)) (value : ℚ) : ℚ :=
  match format with
  | some f => f value
  | none => value

/-- The push loop of `ema`: one smoothing-and-optional-format step per
remaining close. -/
def emaGo (k : ℚ) (format : Option (ℚ → ℚ)) : ℚ → List ℚ → List ℚ
  | _, [] => []
  | value, c :: rest =>
    let v := applyFormat format (k * c + (1 - k) * value)
    v :: emaGo k format v rest

/-- `ema` of src/core/indicators/ma.ts (lines 77-96): empty below the window,
otherwise the unformatted SMA seed followed by the smoothed values. -/
def ema (closes : List ℚ) (mRange : Nat) (format : Option (ℚ → ℚ)) : List ℚ :=
  if closes.length < mRange then []
  else
    let k : ℚ := 2 / (mRange + 1)
    let seed := mean (closes.take mRange)
    seed :: emaGo k format seed (closes.drop mRange)

/-- `sma` of src/core/indicators/ma.ts (lines 106-121): empty below the
window, otherwise one windowed mean per start index. -/
def sma (closes : List ℚ) (mRange : Nat) (format : Option (ℚ → ℚ)) : List ℚ :=
  if closes.length < mRange then []
  else
    (List.range (closes.length - mRange + 1)).map fun i =>
      applyFormat format (mean ((closes.drop i).take mRange))

/-- The downward loop of `calcMACD`: indices `i, i-1, …, 0` of both series,
breaking at the first falsy (zero or absent) entry of either input. -/
def macdGo (short long : List ℚ) (format : Option (ℚ → ℚ)) : Nat → List ℚ
  | 0 => []
  | i + 1 =>
    if short.getD i 0 = 0 ∨ long.getD i 0 = 0 then []
    else
      applyFormat format (short.getD i 0 - long.getD i 0) ::
        macdGo short long format i

/-- `calcMACD` of src/core/indicators/macd.ts (lines 72-89): run the downward
loop over the common length of the two series, then reverse. -/
def calcMACD (short long : List ℚ) (format : Option (ℚ → ℚ)) : List ℚ :=
  (macdGo short long format (min short.length long.length)).reverse

/-- The `MACD` result pair (src/core/indicators/ma.ts). -/
structure MACD where
  value : List ℚ
  signal : List ℚ
deriving DecidableEq

/-- `ProductData.createMACD` of src/core/product-data.ts: the MACD values from
the two EMA series and a 9-period EMA of those values as the signal. -/
def createMACD (format : Option (ℚ → ℚ)) (shortEMA longEMA : List ℚ) : MACD :=
  let macds := calcMACD shortEMA longEMA format
  { value := macds, signal := ema macds 9 format }

/-- The MACD value series as the spec describes it: the two EMA series aligned
on their overlapping suffix, the shorter length winning. Modelled from the
spec for comparison with `calcMACD`. -/
def macdSuffixSpec (short long : List ℚ) : List ℚ :=
  let n := min short.length long.length
  List.zipWith (fun a b => a - b) (short.drop (short.length - n))
    (long.drop (long.length - n))

/-! ## RSI transition analyzer (src/core/indicators/rsi.ts) -/

/-- The two RSI transition messages `rsiAnalysis` can emit; the payload keeps
what the source interpolates into its template string. -/
inductive RsiSignalKind where
  | overbought
  | oversold
deriving DecidableEq

/-- Content of an `rsiAnalysis` message: the kind of flip, the pair, the
close price it started at and the current RSI. -/
structure RsiMessage where
  kind : RsiSignalKind
  productId : String
  startClose : ℚ
  rsi : ℚ
deriving DecidableEq

/-- `rsiAnalysis` of src/core/indicators/rsi.ts (lines 5-20): `last` and `now`
are the optionally-chained RSI values of the two ranking snapshots, falsiness
(absent or exactly 0) on either aborts, then the in-range-to-beyond-threshold
transitions are reported. -/
def rsiAnalysis (productId : String) (last now : Option ℚ) (lastClose : ℚ) :
    Option RsiMessage :=
  if last.getD 0 = 0 ∨ now.getD 0 = 0 then none
  else
    let l := last.getD 0
    let n := now.getD 0
    let wasInRange := RSI_OVERSOLD ≤ l ∧ l ≤ RSI_OVERBOUGHT
    let isHigh := RSI_OVERBOUGHT < n
    let isLow := n < RSI_OVERSOLD
    if wasInRange ∧ isHigh then
      some { kind := .overbought, productId := productId,
             startClose := lastClose, rsi := n }
    else if wasInRange ∧ isLow then
      some { kind := .oversold, productId := productId,
             startClose := lastClose, rsi := n }
    else none

/-! ## Moving-average cross analyzer (src/core/cross.ts: `cross`, `checkMA`) -/

/-- Moving-average values per window (`MAValues` of src/core/rank.ts, the
scalar version the cross analyzer reads). -/
structure MAValues where
  twelve : Option ℚ := none
  twentysix : Option ℚ := none
  fifty : Option ℚ := none
  twohundred : Option ℚ := none
deriving DecidableEq

/-- A cross direction (`CrossChange`). -/
inductive CrossChange where
  | golden
  | death
deriving DecidableEq

/-- The five window-pair results (`CrossResults`); an unset field is a check
that did not fire. -/
structure CrossResults where
  twelve26 : Option CrossChange := none
  twelve50 : Option CrossChange := none
  twentysix50 : Option CrossChange := none
  twentysix200 : Option CrossChange := none
  fifty200 : Option CrossChange := none
deriving DecidableEq

/-- JavaScript falsiness of an optional number: absent or exactly zero. -/
def falsy (v : Option ℚ) : Bool := v.getD 0 = 0

/-- `cross` of src/core/cross.ts: no result on a non-positive (sentinel)
input, otherwise compare the short/long ratios of the two snapshots. -/
def cross (l1 l2 c1 c2 : ℚ) : Option CrossChange :=
  if l1 ≤ 0 ∨ l2 ≤ 0 ∨ c1 ≤ 0 ∨ c2 ≤ 0 then none
  else
    let lRatio := l1 / l2
    let cRatio := c1 / c2
    if lRatio < 1 ∧ 1 ≤ cRatio then some .golden
    else if 1 ≤ lRatio ∧ cRatio < 1 then some .death
    else none

/-- `checkMA` of src/core/cross.ts: the five window-pair checks with the
source's early returns — a falsy 12 or 26 value returns before any check, a
falsy 50 after the 12-26 check, a falsy 200 after the 26-50 check. -/
def checkMA (l c : MAValues) : CrossResults :=
  if falsy l.twelve || falsy l.twentysix || falsy c.twelve || falsy c.twentysix then
    {}
  else
    let res : CrossResults :=
      { twelve26 := cross (l.twelve.getD 0) (l.twentysix.getD 0)
          (c.twelve.getD 0) (c.twentysix.getD 0) }
    if falsy l.fifty || falsy c.fifty then res
    else
      let res :=
        { res with
          twelve50 := cross (l.twelve.getD 0) (l.fifty.getD 0)
            (c.twelve.getD 0) (c.fifty.getD 0)
          twentysix50 := cross (l.twentysix.getD 0) (l.fifty.getD 0)
            (c.twentysix.getD 0) (c.fifty.getD 0) }
      if falsy l.twohundred || falsy c.twohundred then res
      else
        { res with
          twentysix200 := cross (l.twentysix.getD 0) (l.twohundred.getD 0)
            (c.twentysix.getD 0) (c.twohundred.getD 0)
          fifty200 := cross (l.fifty.getD 0) (l.twohundred.getD 0)
            (c.fifty.getD 0) (c.twohundred.getD 0) }

/-- One window-pair check as the spec words it: suppressed exactly when one of
its own four values is missing. Modelled from the spec for comparison with
`checkMA`. -/
def pairCheck (a b a' b' : Option ℚ) : Option CrossChange :=
  if falsy a || falsy b || falsy a' || falsy b' then none
  else cross (a.getD 0) (b.getD 0) (a'.getD 0) (b'.getD 0)

/-- All five window-pair checks evaluated independently, as the spec words it.
Modelled from the spec. -/
def checkMASpec (l c : MAValues) : CrossResults :=
  { twelve26 := pairCheck l.twelve l.twentysix c.twelve c.twentysix
    twelve50 := pairCheck l.twelve l.fifty c.twelve c.fifty
    twentysix50 := pairCheck l.twentysix l.fifty c.twentysix c.fifty
    twentysix200 := pairCheck l.twentysix l.twohundred c.twentysix c.twohundred
    fifty200 := pairCheck l.fifty l.twohundred c.fifty c.twohundred }

/-- What `checkMA` actually computes, stated declaratively: the early returns
make a missing 12/26 value suppress everything, a missing 50 value suppress
everything past the 12-26 check, and a missing 200 value suppress the two
checks that need it; otherwise every check runs independently. -/
def checkMACascade (l c : MAValues) : CrossResults :=
  if falsy l.twelve || falsy l.twentysix || falsy c.twelve || falsy c.twentysix then
    {}
  else if falsy l.fifty || falsy c.fifty then
    { twelve26 := (checkMASpec l c).twelve26 }
  else if falsy l.twohundred || falsy c.twohundred then
    { twelve26 := (checkMASpec l c).twelve26
      twelve50 := (checkMASpec l c).twelve50
      twentysix50 := (checkMASpec l c).twentysix50 }
  else checkMASpec l c

/-! ## Scheduler state (src/core/state.ts) -/

/-- The configuration the `State` constructor validates: the candle size in
minutes (`mCandleSize`) and candles per bucket (`bucket.candlesPer`), both
nonnegative integers. -/
structure StateOpts where
  mCandleSize : Nat
  candlesPer : Nat
deriving DecidableEq

/-- The `State` constructor of src/core/state.ts (lines 58-79) as a fallible
computation: the three guard clauses in source order, then the configuration
is stored. -/
def stateConstructor (config : StateOpts) : Except String StateOpts :=
  if 60 % config.mCandleSize ≠ 0 then
    .error "candle size is invalid. Must be divisible by 60."
  else if 60 < config.mCandleSize then
    .error "candle size is invalid. Cannot exceed 60."
  else if config.candlesPer < 2 then
    .error "bucket size is invalid. It must have a value greater than 1."
  else .ok config

/-- Scheduler snapshot for `updateDataWrapper` (src/core/state.ts lines
196-218): the static `updating` guard and `isEnabled` switch, plus how many
triggers have fired but not yet tested the guard (`checking`) and how many
cycles are executing `updateData` (`running`). -/
structure SchedState where
  updating : Bool
  isEnabled : Bool
  checking : Nat
  running : Nat
deriving DecidableEq

/-- The scheduler's state at startup: guard clear, enabled, nothing queued. -/
def initSched : SchedState :=
  { updating := false, isEnabled := true, checking := 0, running := 0 }

/-- Events of `updateDataWrapper` and `disable`. JavaScript's event loop runs
the guard test and `State.updating = true` with no await point between
them, so `acquire` is one atomic step; `finish` is the `finally` block, taken
on success and on a thrown error alike. -/
inductive SchedStep : SchedState → SchedState → Prop where
  | trigger (s : SchedState) :
      SchedStep s { s with checking := s.checking + 1 }
  | skipBusy (s : SchedState) (h : 0 < s.checking) (hu : s.updating = true) :
      SchedStep s { s with checking := s.checking - 1 }
  | skipDisabled (s : SchedState) (h : 0 < s.checking)
      (hu : s.updating = false) (he : s.isEnabled = false) :
      SchedStep s { s with checking := s.checking - 1 }
  | acquire (s : SchedState) (h : 0 < s.checking)
      (hu : s.updating = false) (he : s.isEnabled = true) :
      SchedStep s { s with checking := s.checking - 1,
                           running := s.running + 1, updating := true }
  | finish (s : SchedState) (h : 0 < s.running) :
      SchedStep s { s with running := s.running - 1, updating := false }
  | disable (s : SchedState) :
      SchedStep s { s with isEnabled := false }

/-- States the scheduler can reach from startup. -/
def SchedReachable : SchedState → Prop :=
  Relation.ReflTransGen SchedStep initSched

/-! ## Concrete inputs used by counterexamples and witnesses -/

/-- A candle whose only distinguishing datum is its open time. -/
def candleTs (t : Nat) : SimpleCandle :=
  { openPrice := 0, close := 0, high := 0, low := 0, volume := 0,
    openTimeInISO := t }

/-- A ranking record passing all four of the code's filter thresholds, with an
RSI of 50 — inside the `[30, 70]` band, so not above the overbought
threshold and not below the oversold one. -/
def rankingRsi50 : ProductRanking :=
  { productId := "BTC-USD"
    ranking := -1
    dataPoints := 10
    movement := 2
    indicators :=
      { rsi := 50, macd := { value := 1, signal := 1 }, sma := {}, ema := {} }
    ratio := { rating := 2, close := 2, diff := 2, volume := 2 }
    last := { volume := 1, volumeAvg := 1, close := 1, closeAvg := 1,
              high := 1, low := 1, cov := { close := 0, volume := 0 } } }

/-- The spec-shaped filter with only the overbought RSI flag enabled. -/
def overboughtOnlyFilter : SortFilterClaim := { overbought := true }

/-- Previous-snapshot moving averages with the 12-window value missing. -/
def maPrev : MAValues := { twentysix := some 1, fifty := some 2 }

/-- Current-snapshot moving averages with the 12-window value missing; the
26/50 ratio moved from 1/2 to 3/2 across the two snapshots. -/
def maCurr : MAValues := { twentysix := some 3, fifty := some 2 }

/-- Twenty-six closes: twelve at 1 followed by fourteen at 2, making the
12-period EMA series non-constant while the 26-period EMA series has exactly
one entry. -/
def macdCexCloses : List ℚ := List.replicate 12 1 ++ List.replicate 14 2

/-! ## Theorems -/

/-- C8: constructing the scheduler state errors exactly when the candle
interval does not divide 60 evenly, or exceeds 60, or the candles-per-bucket
size is below 2; on a valid configuration it returns the stored
configuration unchanged. -/
theorem stateConstructor_validation (cfg : StateOpts) :
    ((∃ e, stateConstructor cfg = .error e) ↔
      ¬cfg.mCandleSize ∣ 60 ∨ 60 < cfg.mCandleSize ∨ cfg.candlesPer < 2) ∧
    (cfg.mCandleSize ∣ 60 → cfg.mCandleSize ≤ 60 → 2 ≤ cfg.candlesPer →
      stateConstructor cfg = .ok cfg) := by
  have hmod : cfg.mCandleSize ∣ 60 → 60 % cfg.mCandleSize = 0 := by
    rintro ⟨k, hk⟩
    rw [hk]
    exact Nat.mul_mod_right _ _
  constructor
  · constructor
    · rintro ⟨e, he⟩
      unfold stateConstructor at he
      split_ifs at he with h1 h2 h3
      · exact Or.inl fun hd => h1 (hmod hd)
      · exact Or.inr (Or.inl h2)
      · exact Or.inr (Or.inr h3)
    · intro h
      unfold stateConstructor
      split_ifs with h1 h2 h3
      · exact ⟨_, rfl⟩
      · exact ⟨_, rfl⟩
      · exact ⟨_, rfl⟩
      · rcases h with hd | h60 | hcp
        · exact absurd (Nat.dvd_of_mod_eq_zero (by omega)) hd
        · exact absurd h60 h2
        · exact absurd hcp h3
  · intro hd h60 hcp
    unfold stateConstructor
    rw [if_neg (by simp [hmod hd]), if_neg (by omega), if_neg (by omega)]

/-- C9: `sma` is empty when the closes are shorter than the window, and
otherwise has one entry per window position, each the arithmetic mean of its
window; in particular `sma [1,2,3,4,5] 3 = [2,3,4]`. -/
theorem sma_window (closes : List ℚ) (n : Nat) :
    (closes.length < n → sma closes n none = []) ∧
    (n ≤ closes.length →
      (sma closes n none).length = closes.length - n + 1 ∧
      ∀ i, i < closes.length - n + 1 →
        (sma closes n none).getD i 0 = ((closes.drop i).take n).sum / n) ∧
    sma [1, 2, 3, 4, 5] 3 none = [2, 3, 4] := by
  refine ⟨fun h => by simp [sma, h], fun h => ⟨?_, ?_⟩, ?_⟩
  · simp [sma, Nat.not_lt.mpr h]
  · intro i hi
    have hwin : ((closes.drop i).take n).length = n := by
      simp [List.length_take, List.length_drop]
      omega
    simp only [sma, if_neg (Nat.not_lt.mpr h), applyFormat]
    rw [List.getD_eq_getElem?_getD, List.getElem?_map, List.getElem?_range hi]
    simp only [Option.map_some', Option.getD_some, mean, hwin]
  · norm_num [sma, mean, applyFormat, List.range_succ]

/-- C10: a previous or current RSI that is absent or exactly 0 is treated as
missing by `rsiAnalysis`' falsiness test, so no message is produced — even
though 0 is strictly below the oversold threshold of 30, which sits above
zero. -/
theorem rsiAnalysis_zero_suppressed (productId : String) (last now : Option ℚ)
    (lastClose : ℚ) (h : last.getD 0 = 0 ∨ now.getD 0 = 0) :
    rsiAnalysis productId last now lastClose = none ∧ (0 : ℚ) < RSI_OVERSOLD := by
  refine ⟨?_, by norm_num [RSI_OVERSOLD]⟩
  unfold rsiAnalysis
  exact if_pos h

/-- Witness for C10: a current RSI of exactly 0 with a previous RSI of 50
(inside `[30, 70]`) reports nothing. -/
theorem rsiAnalysis_zero_suppressed_witness :
    rsiAnalysis "BTC-USD" (some 50) (some 0) 100 = none ∧
      (0 : ℚ) < RSI_OVERSOLD :=
  rsiAnalysis_zero_suppressed "BTC-USD" (some 50) (some 0) 100 (Or.inr rfl)

/-- C7 counterexample: with the 12-window value missing on both snapshots and
the 26/50 ratio crossing from 1/2 to 3/2, `checkMA` returns no result at all
— the early return aborts the 26-50 check too — while the claim's
per-pair-independent reading still emits a golden cross for 26-50. -/
theorem checkMA_missing_cex :
    checkMA maPrev maCurr = {} ∧
    (checkMASpec maPrev maCurr).twentysix50 = some CrossChange.golden ∧
    checkMA maPrev maCurr ≠ checkMASpec maPrev maCurr := by
  with_unfolding_all decide

/-- C7 amended: a missing (absent or zero) moving-average value suppresses
checks cascadingly, not individually: a falsy 12 or 26 value on either
snapshot suppresses all five checks, a falsy 50 suppresses everything past
the 12-26 check, a falsy 200 suppresses the 26-200 and 50-200 checks; only
when every window value is present do all five checks run independently, and
a non-positive sentinel value then suppresses just the checks that divide by
it (inside `cross`). -/
theorem checkMA_cascades (l c : MAValues) : checkMA l c = checkMACascade l c := by
  unfold checkMA checkMACascade
  cases h1 : (falsy l.twelve || falsy l.twentysix || falsy c.twelve || falsy c.twentysix) with
  | true => rfl
  | false =>
    simp only [Bool.or_eq_false_iff] at h1
    obtain ⟨⟨⟨hl12, hl26⟩, hc12⟩, hc26⟩ := h1
    simp only [Bool.false_eq_true, if_false]
    cases h2 : (falsy l.fifty || falsy c.fifty) with
    | true =>
      simp only [if_true, checkMASpec, pairCheck, hl12, hl26, hc12, hc26,
        Bool.or_self, Bool.or_false, Bool.false_or, Bool.false_eq_true, if_false]
    | false =>
      simp only [Bool.or_eq_false_iff] at h2
      obtain ⟨hl50, hc50⟩ := h2
      simp only [Bool.false_eq_true, if_false]
      cases h3 : (falsy l.twohundred || falsy c.twohundred) with
      | true =>
        simp only [if_true, checkMASpec, pairCheck, hl12, hl26, hc12, hc26,
          hl50, hc50, Bool.or_self, Bool.or_false, Bool.false_or,
          Bool.false_eq_true, if_false]
      | false =>
        simp only [Bool.or_eq_false_iff] at h3
        obtain ⟨hl200, hc200⟩ := h3
        simp only [Bool.false_eq_true, if_false, checkMASpec, pairCheck,
          hl12, hl26, hc12, hc26, hl50, hc50, hl200, hc200,
          Bool.or_self, Bool.or_false, Bool.false_or]

/-- The downward `calcMACD` loop, absent a falsy entry, is the reversed list
of head-aligned formatted differences. -/
theorem macdGo_eq_map (short long : List ℚ) (format : Option (ℚ → ℚ)) :
    ∀ k, (∀ i, i < k → short.getD i 0 ≠ 0 ∧ long.getD i 0 ≠ 0) →
      macdGo short long format k =
        ((List.range k).map fun i =>
          applyFormat format (short.getD i 0 - long.getD i 0)).reverse := by
  intro k
  induction k with
  | zero => intro _; rfl
  | succ k ih =>
    intro hz
    have hk := hz k (Nat.lt_succ_self k)
    rw [macdGo, if_neg (by tauto), ih fun i hi => hz i (Nat.lt_succ_of_lt hi),
      List.range_succ]
    simp

/-- C2 amended: for a close series of length at least 26 whose 12- and
26-period EMA values are nonzero over the common index range, the MACD value
series is the pointwise difference of the two EMA series aligned at their
heads — index `i` of the shorter series is paired with index `i` of the
longer, not with the suffix-aligned entry — and the signal is the 9-period
EMA of the value series. -/
theorem calcMACD_head_aligned (closes : List ℚ) (format : Option (ℚ → ℚ))
    (h26 : 26 ≤ closes.length)
    (hz : ∀ i, i < min (ema closes 12 format).length (ema closes 26 format).length →
      (ema closes 12 format).getD i 0 ≠ 0 ∧ (ema closes 26 format).getD i 0 ≠ 0) :
    calcMACD (ema closes 12 format) (ema closes 26 format) format =
      ((List.range
          (min (ema closes 12 format).length (ema closes 26 format).length)).map
        fun i =>
          applyFormat format
            ((ema closes 12 format).getD i 0 - (ema closes 26 format).getD i 0)) ∧
    createMACD format (ema closes 12 format) (ema closes 26 format) =
      { value := calcMACD (ema closes 12 format) (ema closes 26 format) format
        signal :=
          ema (calcMACD (ema closes 12 format) (ema closes 26 format) format)
            9 format } := by
  refine ⟨?_, rfl⟩
  rw [calcMACD, macdGo_eq_map _ _ _ _ hz, List.reverse_reverse]

/-- Witness for C2's amended theorem: twenty-six constant closes, where both
EMA series are constantly 1 and the MACD value series is the single
head-aligned difference `[0]`. -/
theorem calcMACD_head_aligned_witness :
    calcMACD (ema (List.replicate 26 (1 : ℚ)) 12 none)
        (ema (List.replicate 26 (1 : ℚ)) 26 none) none =
      ((List.range
          (min (ema (List.replicate 26 (1 : ℚ)) 12 none).length
            (ema (List.replicate 26 (1 : ℚ)) 26 none).length)).map
        fun i =>
          applyFormat none
            ((ema (List.replicate 26 (1 : ℚ)) 12 none).getD i 0 -
              (ema (List.replicate 26 (1 : ℚ)) 26 none).getD i 0)) ∧
    createMACD none (ema (List.replicate 26 (1 : ℚ)) 12 none)
        (ema (List.replicate 26 (1 : ℚ)) 26 none) =
      { value :=
          calcMACD (ema (List.replicate 26 (1 : ℚ)) 12 none)
            (ema (List.replicate 26 (1 : ℚ)) 26 none) none
        signal :=
          ema
            (calcMACD (ema (List.replicate 26 (1 : ℚ)) 12 none)
              (ema (List.replicate 26 (1 : ℚ)) 26 none) none)
            9 none } :=
  calcMACD_head_aligned (List.replicate 26 (1 : ℚ)) none
    (by with_unfolding_all decide) (by with_unfolding_all decide)

/-- C2 counterexample: on twelve closes of 1 followed by fourteen closes of 2
(length 26, inside the claim's scope), `calcMACD` of the 12- and 26-period
EMA series differs from the suffix-aligned pointwise difference the claim
describes: the code pairs the first entries of both series, the claim the
last ones. -/
theorem calcMACD_suffix_cex :
    26 ≤ macdCexCloses.length ∧
    calcMACD (ema macdCexCloses 12 none) (ema macdCexCloses 26 none) none ≠
      macdSuffixSpec (ema macdCexCloses 12 none) (ema macdCexCloses 26 none) := by
  with_unfolding_all decide

/-- `findIdx?` returning an index yields an in-range element satisfying the
predicate. -/
theorem findIdx_some_spec {α : Type} (p : α → Bool) :
    ∀ (l : List α) (i : Nat), l.findIdx? p = some i →
      ∃ h : i < l.length, p (l.get ⟨i, h⟩) := by
  intro l
  induction l with
  | nil => intro i h; simp [List.findIdx?] at h
  | cons a as ih =>
    intro i h
    rw [List.findIdx?_cons] at h
    by_cases hp : p a
    · rw [if_pos hp] at h
      obtain rfl : (0 : Nat) = i := Option.some_injective _ h
      exact ⟨Nat.succ_pos _, hp⟩
    · rw [if_neg hp, List.findIdx?_succ] at h
      obtain ⟨j, hj, rfl⟩ := Option.map_eq_some'.mp h
      obtain ⟨hjl, hpj⟩ := ih j hj
      exact ⟨Nat.succ_lt_succ hjl, hpj⟩

/-- In a strictly ascending candle list, once the candle at position `i` is
newer than `oldestTs`, so is everything from position `i` on. -/
theorem drop_all_newer (l : List SimpleCandle) (oldestTs : Nat)
    (hsort : l.Pairwise fun a b => a.openTimeInISO < b.openTimeInISO)
    (i : Nat) (hi : i < l.length)
    (hts : oldestTs < (l.get ⟨i, hi⟩).openTimeInISO) :
    ∀ x ∈ l.drop i, oldestTs < x.openTimeInISO := by
  intro x hx
  obtain ⟨j, hj, hxj⟩ := List.mem_iff_getElem.mp hx
  have hlen : i + j < l.length := by
    have := hj
    simp only [List.length_drop] at this
    omega
  have hval : (l.drop i)[j] = l[i + j] := List.getElem_drop ..
  rcases Nat.eq_zero_or_pos j with rfl | hjpos
  · rw [← hxj, hval]
    simpa using hts
  · have hpw := List.pairwise_iff_getElem.mp hsort i (i + j) hi hlen (by omega)
    rw [← hxj, hval]
    calc oldestTs < (l.get ⟨i, hi⟩).openTimeInISO := hts
      _ < l[i + j].openTimeInISO := hpw

/-- `dropOutdated` always returns a suffix of its input. -/
theorem dropOutdated_eq_drop (l : List SimpleCandle) (oldestTs : Nat) :
    ∃ k, dropOutdated l oldestTs = l.drop k := by
  cases l with
  | nil => exact ⟨0, rfl⟩
  | cons c0 t =>
    show ∃ k,
      (if c0.openTimeInISO ≤ oldestTs then
        match (c0 :: t).findIdx? fun c => oldestTs < c.openTimeInISO with
        | some index => (c0 :: t).drop index
        | none => c0 :: t
      else c0 :: t) = (c0 :: t).drop k
    by_cases hle : c0.openTimeInISO ≤ oldestTs
    · rw [if_pos hle]
      cases hf : (c0 :: t).findIdx? fun c => oldestTs < c.openTimeInISO with
      | none => exact ⟨0, (List.drop_zero _).symm⟩
      | some index => exact ⟨index, rfl⟩
    · rw [if_neg hle]
      exact ⟨0, (List.drop_zero _).symm⟩

/-- If any candle survives `dropOutdated` strictly newer than the cutoff,
then every surviving candle is strictly newer. -/
theorem dropOutdated_all_newer (l : List SimpleCandle) (oldestTs : Nat)
    (hsort : l.Pairwise fun a b => a.openTimeInISO < b.openTimeInISO)
    (hex : ∃ x ∈ dropOutdated l oldestTs, oldestTs < x.openTimeInISO) :
    ∀ x ∈ dropOutdated l oldestTs, oldestTs < x.openTimeInISO := by
  cases l with
  | nil =>
    intro x hx
    exact absurd hx (by simp [dropOutdated])
  | cons c0 t =>
    have hshape : dropOutdated (c0 :: t) oldestTs =
        (if c0.openTimeInISO ≤ oldestTs then
          match (c0 :: t).findIdx? fun c => oldestTs < c.openTimeInISO with
          | some index => (c0 :: t).drop index
          | none => c0 :: t
        else c0 :: t) := rfl
    rw [hshape] at hex ⊢
    by_cases hle : c0.openTimeInISO ≤ oldestTs
    · rw [if_pos hle] at hex ⊢
      cases hf : (c0 :: t).findIdx? fun c => oldestTs < c.openTimeInISO with
      | none =>
        rw [hf] at hex
        rw [List.findIdx?_eq_none_iff] at hf
        obtain ⟨x, hx, hts⟩ := hex
        have := hf x hx
        simp only [decide_eq_false_iff_not] at this
        exact absurd hts this
      | some index =>
        obtain ⟨hilen, hip⟩ := findIdx_some_spec _ _ _ hf
        exact drop_all_newer _ _ hsort index hilen (by simpa using hip)
    · rw [if_neg hle] at hex ⊢
      have h0 : oldestTs < ((c0 :: t).get ⟨0, Nat.succ_pos _⟩).openTimeInISO := by
        simpa using Nat.lt_of_not_le hle
      have := drop_all_newer (c0 :: t) oldestTs hsort 0 (Nat.succ_pos _) h0
      simpa using this

/-- The append-and-cap phase keeps a strictly ascending, duplicate-free
order when the new candles are all strictly newer than the cached ones. -/
theorem capCandles_pairwise (oldCandles newCandles : List SimpleCandle)
    (maxCandles : Nat)
    (hold : oldCandles.Pairwise fun a b => a.openTimeInISO < b.openTimeInISO)
    (hnew : newCandles.Pairwise fun a b => a.openTimeInISO < b.openTimeInISO)
    (hsep : ∀ o ∈ oldCandles, ∀ nc ∈ newCandles,
      o.openTimeInISO < nc.openTimeInISO) :
    (capCandles oldCandles newCandles maxCandles).Pairwise
      fun a b => a.openTimeInISO < b.openTimeInISO := by
  unfold capCandles
  have happ :
      (oldCandles ++ newCandles).Pairwise
        (fun a b => a.openTimeInISO < b.openTimeInISO) :=
    List.pairwise_append.mpr ⟨hold, hnew, hsep⟩
  split_ifs with h1 h2
  · exact happ.sublist (List.drop_sublist _ _)
  · exact happ
  · exact hold

/-- With new candles present, the append-and-cap phase caps the length. -/
theorem capCandles_length (oldCandles newCandles : List SimpleCandle)
    (maxCandles : Nat) (hne : newCandles ≠ []) :
    (capCandles oldCandles newCandles maxCandles).length ≤ maxCandles := by
  unfold capCandles
  rw [if_pos (List.length_pos.mpr hne)]
  split_ifs with h
  · simp only [List.length_drop]
    omega
  · omega

/-- C5 amended: for a strictly ascending cache and strictly newer, strictly
ascending new candles, the merge stays strictly ascending (so ascending and
duplicate-free); its length is at most `maxCandles` provided new candles
actually arrived (with no new candles the input is returned unchanged, cap
and all); and no surviving candle is at or before `oldestTs` provided at
least one surviving candle is strictly newer than `oldestTs` (when none is,
the outdated candles are all retained). -/
theorem combineCandles_merge (oldCandles newCandles : List SimpleCandle)
    (oldestTs maxCandles : Nat)
    (hold : oldCandles.Pairwise fun a b => a.openTimeInISO < b.openTimeInISO)
    (hnew : newCandles.Pairwise fun a b => a.openTimeInISO < b.openTimeInISO)
    (hsep : ∀ o ∈ oldCandles, ∀ nc ∈ newCandles,
      o.openTimeInISO < nc.openTimeInISO) :
    (combineCandles oldCandles newCandles oldestTs maxCandles).Pairwise
      (fun a b => a.openTimeInISO < b.openTimeInISO) ∧
    (newCandles ≠ [] →
      (combineCandles oldCandles newCandles oldestTs maxCandles).length ≤
        maxCandles) ∧
    ((∃ x ∈ combineCandles oldCandles newCandles oldestTs maxCandles,
        oldestTs < x.openTimeInISO) →
      ∀ x ∈ combineCandles oldCandles newCandles oldestTs maxCandles,
        oldestTs < x.openTimeInISO) := by
  have hcap := capCandles_pairwise oldCandles newCandles maxCandles hold hnew hsep
  obtain ⟨k, hk⟩ :=
    dropOutdated_eq_drop (capCandles oldCandles newCandles maxCandles) oldestTs
  refine ⟨?_, ?_, ?_⟩
  · rw [combineCandles, hk]
    exact hcap.sublist (List.drop_sublist _ _)
  · intro hne
    rw [combineCandles, hk]
    calc ((capCandles oldCandles newCandles maxCandles).drop k).length
        ≤ (capCandles oldCandles newCandles maxCandles).length :=
          (List.drop_sublist _ _).length_le
      _ ≤ maxCandles := capCandles_length oldCandles newCandles maxCandles hne
  · exact dropOutdated_all_newer _ _ hcap

/-- Witness for C5's amended theorem: one cached candle at time 1, one new
candle at time 2, cutoff 0, cap 5. -/
theorem combineCandles_merge_witness :
    (combineCandles [candleTs 1] [candleTs 2] 0 5).Pairwise
      (fun a b => a.openTimeInISO < b.openTimeInISO) ∧
    ([candleTs 2] ≠ [] →
      (combineCandles [candleTs 1] [candleTs 2] 0 5).length ≤ 5) ∧
    ((∃ x ∈ combineCandles [candleTs 1] [candleTs 2] 0 5,
        0 < x.openTimeInISO) →
      ∀ x ∈ combineCandles [candleTs 1] [candleTs 2] 0 5,
        0 < x.openTimeInISO) :=
  combineCandles_merge [candleTs 1] [candleTs 2] 0 5 (by decide) (by decide)
    (by decide)

/-- C5 counterexample: both inputs below are inside the claim's scope
(strictly ascending cache, strictly newer new candles), yet with no new
candles the cap is ignored — two cached candles survive a `maxCount` of 1 —
and when every candle is at or before `oldestAllowedTimestamp` the stale
candles are all retained rather than dropped. -/
theorem combineCandles_cex :
    ([candleTs 1, candleTs 2].Pairwise
      fun a b => a.openTimeInISO < b.openTimeInISO) ∧
    combineCandles [candleTs 1, candleTs 2] [] 2 1 =
      [candleTs 1, candleTs 2] ∧
    ¬(combineCandles [candleTs 1, candleTs 2] [] 2 1).length ≤ 1 ∧
    (∀ o ∈ [candleTs 1, candleTs 2], ∀ nc ∈ [candleTs 3],
      o.openTimeInISO < nc.openTimeInISO) ∧
    (∃ x ∈ combineCandles [candleTs 1, candleTs 2] [candleTs 3] 3 5,
      x.openTimeInISO ≤ 3) := by
  with_unfolding_all decide

/-- Rank assignment does not touch the ratings. -/
theorem assignRanks_map_rating (n : Int) (l : List ProductRanking) :
    (assignRanks n l).map (fun r => r.ratio.rating) =
      l.map fun r => r.ratio.rating := by
  induction l generalizing n with
  | nil => rfl
  | cons r rest ih => simp [assignRanks, ih]

/-- Every record out of `assignRanks` is a record of the input with only its
`ranking` field overwritten. -/
theorem assignRanks_mem (n : Int) (l : List ProductRanking)
    (x : ProductRanking) (hx : x ∈ assignRanks n l) :
    ∃ y ∈ l, ∃ k, x = { y with ranking := k } := by
  induction l generalizing n with
  | nil => cases hx
  | cons r rest ih =>
    rcases List.mem_cons.mp hx with rfl | h
    · exact ⟨r, List.mem_cons_self r rest, n, rfl⟩
    · obtain ⟨y, hy, k, rfl⟩ := ih (n + 1) h
      exact ⟨y, List.mem_cons_of_mem r hy, k, rfl⟩

/-- Rank assignment preserves the descending-rating order. -/
theorem assignRanks_pairwise (n : Int) (l : List ProductRanking)
    (h : l.Pairwise ratingGe) : (assignRanks n l).Pairwise ratingGe := by
  have h1 : ((l.map fun r => r.ratio.rating).Pairwise fun a b : ℚ => b ≤ a) :=
    (List.pairwise_map (f := fun r : ProductRanking => r.ratio.rating)).mpr h
  rw [← assignRanks_map_rating n l] at h1
  exact (List.pairwise_map (f := fun r : ProductRanking => r.ratio.rating)).mp h1

/-- Reassigning the same starting rank twice is the same as doing it once. -/
theorem assignRanks_idem (n : Int) (l : List ProductRanking) :
    assignRanks n (assignRanks n l) = assignRanks n l := by
  induction l generalizing n with
  | nil => rfl
  | cons r rest ih => simp [assignRanks, ih]

/-- `truncateCount` on a present count is the positive-count take. -/
theorem truncateCount_some (c : Int) (s : List ProductRanking) :
    truncateCount (some c) s = if 0 < c then s.take c.toNat else s := rfl

/-- `truncateCount` on an absent count does nothing. -/
theorem truncateCount_none (s : List ProductRanking) :
    truncateCount none s = s := rfl

/-- The four successive truthiness-guarded filters of `sortRankings` are one
filtering pass with the conjunction of the enabled flag tests. -/
theorem applyFlagFilters_eq_filter (f : SortFilter)
    (rs : List ProductRanking) :
    applyFlagFilters f rs = rs.filter (passesFilter f) := by
  rcases f with ⟨cnt, mv, cl, df, vl⟩
  cases mv <;> cases cl <;> cases df <;> cases vl <;>
      simp only [applyFlagFilters, List.filter_filter, Bool.false_eq_true,
        eq_self_iff_true, if_true, if_false] <;>
    first
      | (symm
         exact List.filter_eq_self.mpr fun a _ => by simp [passesFilter])
      | (exact List.filter_congr fun a _ => by simp [passesFilter])

/-- Everything `sortRankings` returns passed every enabled filter flag. -/
theorem sortRankings_mem_passes (rs : List ProductRanking) (f : SortFilter) :
    ∀ r ∈ sortRankings rs f, passesFilter f r = true := by
  intro r hr
  unfold sortRankings at hr
  obtain ⟨y, hy, k, rfl⟩ := assignRanks_mem _ _ _ hr
  have hy2 : y ∈ (applyFlagFilters f rs).insertionSort ratingGe := by
    cases hc : f.count with
    | none => simpa [truncateCount, hc] using hy
    | some c =>
      rw [hc, truncateCount_some] at hy
      split_ifs at hy with hpos
      · exact List.mem_of_mem_take hy
      · exact hy
  have hy3 : y ∈ applyFlagFilters f rs :=
    (List.perm_insertionSort ratingGe _).subset hy2
  rw [applyFlagFilters_eq_filter] at hy3
  exact (List.mem_filter.mp hy3).2

/-- `sortRankings` returns a list sorted by descending rating. -/
theorem sortRankings_sorted (rs : List ProductRanking) (f : SortFilter) :
    (sortRankings rs f).Pairwise ratingGe := by
  unfold sortRankings
  apply assignRanks_pairwise
  have hs : ((applyFlagFilters f rs).insertionSort ratingGe).Pairwise ratingGe :=
    List.sorted_insertionSort ratingGe _
  cases hc : f.count with
  | none => exact hs
  | some c =>
    rw [truncateCount_some]
    split_ifs with hpos
    · exact hs.sublist (List.take_sublist _ _)
    · exact hs

/-- `assignRanks` keeps the list length. -/
theorem assignRanks_length (n : Int) (l : List ProductRanking) :
    (assignRanks n l).length = l.length := by
  induction l generalizing n with
  | nil => rfl
  | cons r rest ih => simp [assignRanks, ih]

/-- C1 amended: `sortRankings` drops every record failing an enabled boolean
filter flag among closeRatio>1, diffRatio>1, volumeRatio>1 and movement>1 —
the code's `SortFilter` has no RSI flags and no RSI-based dropping occurs —
then stable-sorts the survivors by descending rating, truncates to
`filter.count` when that count is positive, and assigns dense 1-based ranks;
equivalently, it is the single-pass filter-sort-truncate-rank pipeline, and
every surviving record satisfies each enabled flag's threshold test. -/
theorem sortRankings_pipeline (rankings : List ProductRanking)
    (filter : SortFilter) :
    sortRankings rankings filter = sortRankingsSpec rankings filter ∧
    ∀ r ∈ sortRankings rankings filter,
      (filter.close = true → 1 < r.ratio.close) ∧
      (filter.diff = true → 1 < r.ratio.diff) ∧
      (filter.volume = true → 1 < r.ratio.volume) ∧
      (filter.movement = true → 1 < r.movement) := by
  constructor
  · unfold sortRankings sortRankingsSpec
    rw [applyFlagFilters_eq_filter]
  · intro r hr
    have hp := sortRankings_mem_passes rankings filter r hr
    unfold passesFilter at hp
    simp only [Bool.and_eq_true, Bool.or_eq_true, Bool.not_eq_true',
      decide_eq_true_eq] at hp
    obtain ⟨h4, h3, h2, h1⟩ := hp
    refine ⟨fun hc => ?_, fun hd => ?_, fun hv => ?_, fun hm => ?_⟩
    · rcases h1 with h | h
      · rw [hc] at h; cases h
      · exact h
    · rcases h2 with h | h
      · rw [hd] at h; cases h
      · exact h
    · rcases h3 with h | h
      · rw [hv] at h; cases h
      · exact h
    · rcases h4 with h | h
      · rw [hm] at h; cases h
      · exact h

/-- C1 counterexample: a record with an RSI of 50 — not above the overbought
threshold of 70 — passes `sortRankings` under the projection of the spec's
overbought-enabled filter (there is no RSI flag on the code's `SortFilter`
for it to honor), while the claim's six-flag pipeline is required to drop
it. -/
theorem sortRankings_rsi_cex :
    sortRankings [rankingRsi50] overboughtOnlyFilter.project =
      [{ rankingRsi50 with ranking := 1 }] ∧
    sortRankingsClaim [rankingRsi50] overboughtOnlyFilter = [] ∧
    ¬RSI_OVERBOUGHT < rankingRsi50.indicators.rsi := by
  with_unfolding_all decide

/-- C3: `sortRankings` is idempotent — filtering keeps every record that
already passed, re-sorting an already-sorted list (ties included, by
stability) changes nothing, the truncation is already satisfied, and rank
reassignment overwrites the same ranks. -/
theorem sortRankings_idempotent (rankings : List ProductRanking)
    (filter : SortFilter) :
    sortRankings (sortRankings rankings filter) filter =
      sortRankings rankings filter := by
  have h1 : applyFlagFilters filter (sortRankings rankings filter) =
      sortRankings rankings filter := by
    rw [applyFlagFilters_eq_filter]
    exact List.filter_eq_self.mpr (sortRankings_mem_passes rankings filter)
  have h2 : (sortRankings rankings filter).insertionSort ratingGe =
      sortRankings rankings filter :=
    List.Sorted.insertionSort_eq (sortRankings_sorted rankings filter)
  have h3 : truncateCount filter.count (sortRankings rankings filter) =
      sortRankings rankings filter := by
    cases hc : filter.count with
    | none => rfl
    | some c =>
      rw [truncateCount_some]
      split_ifs with hpos
      · apply List.take_of_length_le
        show (sortRankings rankings filter).length ≤ c.toNat
        unfold sortRankings
        rw [assignRanks_length, hc, truncateCount_some, if_pos hpos]
        exact List.length_take_le _ _
      · rfl
  have h4 : assignRanks 1 (sortRankings rankings filter) =
      sortRankings rankings filter := by
    show assignRanks 1
        (assignRanks 1
          (truncateCount filter.count
            ((applyFlagFilters filter rankings).insertionSort ratingGe))) =
      assignRanks 1
        (truncateCount filter.count
          ((applyFlagFilters filter rankings).insertionSort ratingGe))
    exact assignRanks_idem 1 _
  calc sortRankings (sortRankings rankings filter) filter
      = assignRanks 1
          (truncateCount filter.count
            ((applyFlagFilters filter
              (sortRankings rankings filter)).insertionSort ratingGe)) := rfl
    _ = sortRankings rankings filter := by rw [h1, h2, h3, h4]

/-- One scheduler step preserves the guard-counts-cycles invariant. -/
theorem schedStep_preserves (a b : SchedState) (hstep : SchedStep a b)
    (ih : a.running = if a.updating then 1 else 0) :
    b.running = if b.updating then 1 else 0 := by
  cases hstep with
  | trigger => simpa using ih
  | skipBusy h hu => simpa using ih
  | skipDisabled h hu he => simpa using ih
  | acquire h hu he =>
    rw [hu] at ih
    simp only [Bool.false_eq_true, if_false] at ih
    simp [ih]
  | finish h =>
    cases hupd : a.updating with
    | false =>
      rw [hupd] at ih
      simp only [Bool.false_eq_true, if_false] at ih
      dsimp only
      simp only [Bool.false_eq_true, if_false]
      omega
    | true =>
      rw [hupd] at ih
      simp only [if_true] at ih
      dsimp only
      simp only [Bool.false_eq_true, if_false]
      omega
  | disable => simpa using ih

/-- The number of in-flight cycles of a reachable scheduler state matches its
guard flag: one while `updating`, zero otherwise. -/
theorem schedReachable_running (s : SchedState) (hreach : SchedReachable s) :
    s.running = if s.updating then 1 else 0 := by
  induction hreach with
  | refl => rfl
  | tail hab hstep ih => exact schedStep_preserves _ _ hstep ih

/-- C4: one cycle at a time. In every reachable scheduler state the guard
counts the in-flight cycles (so never two at once); a step only raises the
cycle count by setting the guard and only lowers it by clearing the guard
(the `finally` covers success and failure alike); a trigger arriving while
`updating` holds takes the skip transition, which leaves the in-flight cycle
count and the guard untouched; and once the guard is clear an enabled
scheduler can always start the next requested cycle. -/
theorem scheduler_single_cycle (s : SchedState) (hreach : SchedReachable s) :
    (s.running = if s.updating then 1 else 0) ∧
    s.running ≤ 1 ∧
    (∀ s', SchedStep s s' →
      (s.running < s'.running → s'.updating = true) ∧
      (s'.running < s.running → s'.updating = false)) ∧
    (s.updating = true → 0 < s.checking →
      SchedStep s { s with checking := s.checking - 1 } ∧
      ({ s with checking := s.checking - 1 } : SchedState).running = s.running ∧
      ({ s with checking := s.checking - 1 } : SchedState).updating =
        s.updating) ∧
    (s.updating = false → s.isEnabled = true → 0 < s.checking →
      SchedStep s
        { s with checking := s.checking - 1, running := s.running + 1,
                 updating := true }) := by
  have hinv := schedReachable_running s hreach
  refine ⟨hinv, by rw [hinv]; cases s.updating <;> simp, ?_, ?_, ?_⟩
  · intro s' hstep
    cases hstep with
    | trigger => exact ⟨fun h => absurd h (Nat.lt_irrefl _),
        fun h => absurd h (Nat.lt_irrefl _)⟩
    | skipBusy h hu => exact ⟨fun h => absurd h (Nat.lt_irrefl _),
        fun h => absurd h (Nat.lt_irrefl _)⟩
    | skipDisabled h hu he => exact ⟨fun h => absurd h (Nat.lt_irrefl _),
        fun h => absurd h (Nat.lt_irrefl _)⟩
    | acquire h hu he =>
      exact ⟨fun _ => rfl, fun hlt => absurd hlt (by dsimp only; omega)⟩
    | finish h =>
      exact ⟨fun hlt => absurd hlt (by dsimp only; omega), fun _ => rfl⟩
    | disable => exact ⟨fun h => absurd h (Nat.lt_irrefl _),
        fun h => absurd h (Nat.lt_irrefl _)⟩
  · intro hu hc
    exact ⟨SchedStep.skipBusy s hc hu, rfl, rfl⟩
  · intro hu he hc
    exact SchedStep.acquire s hc hu he

/-- Witness for C4: the start state is reachable, and the theorem's
guarantees hold there. -/
theorem scheduler_single_cycle_witness :
    (initSched.running = if initSched.updating then 1 else 0) ∧
    initSched.running ≤ 1 ∧
    (∀ s', SchedStep initSched s' →
      (initSched.running < s'.running → s'.updating = true) ∧
      (s'.running < initSched.running → s'.updating = false)) ∧
    (initSched.updating = true → 0 < initSched.checking →
      SchedStep initSched { initSched with checking := initSched.checking - 1 } ∧
      ({ initSched with checking := initSched.checking - 1 } :
        SchedState).running = initSched.running ∧
      ({ initSched with checking := initSched.checking - 1 } :
        SchedState).updating = initSched.updating) ∧
    (initSched.updating = false → initSched.isEnabled = true →
      0 < initSched.checking →
      SchedStep initSched
        { initSched with checking := initSched.checking - 1,
                         running := initSched.running + 1, updating := true }) :=
  scheduler_single_cycle initSched Relation.ReflTransGen.refl

/-- No bucket precedes position 0. -/
theorem lastNonempty_zero (cbs : List CandleBucket) :
    lastNonempty cbs 0 = none := rfl

/-- Extending the scanned prefix by one bucket: a non-empty bucket becomes
the nearest earlier non-empty one, an empty bucket changes nothing. -/
theorem lastNonempty_succ (cbs : List CandleBucket) (i : Nat)
    (h : i < cbs.length) :
    lastNonempty cbs (i + 1) =
      if 0 < cbs[i].candles.length then some cbs[i] else lastNonempty cbs i := by
  unfold lastNonempty
  rw [List.take_succ, List.getElem?_eq_getElem h]
  simp only [Option.toList_some, List.reverse_append, List.reverse_singleton,
    List.singleton_append]
  by_cases hp : 0 < cbs[i].candles.length
  · rw [List.find?_cons_of_pos _ (by simpa using hp), if_pos hp]
  · rw [List.find?_cons_of_neg _ (by simpa using hp), if_neg hp]

/-- The source's downward scan from position `i` finds exactly the last
non-empty bucket among the first `i + 1`. -/
theorem findPrev_eq_lastNonempty (cbs : List CandleBucket) :
    ∀ i, i < cbs.length → findPrev cbs i = lastNonempty cbs (i + 1) := by
  intro i
  induction i with
  | zero =>
    intro h
    have hL : findPrev cbs 0 =
        (if 0 < cbs[0].candles.length then some cbs[0] else none) := by
      unfold findPrev
      rw [List.getElem?_eq_getElem h]
    rw [hL, lastNonempty_succ cbs 0 h, lastNonempty_zero]
  | succ p ih =>
    intro h
    have hp' : p < cbs.length := Nat.lt_of_succ_lt h
    have hL : findPrev cbs (p + 1) =
        (if 0 < cbs[p + 1].candles.length then some cbs[p + 1]
         else findPrev cbs p) := by
      conv_lhs => rw [findPrev]
      rw [List.getElem?_eq_getElem h]
    rw [hL, lastNonempty_succ cbs (p + 1) h, ih hp']

/-- One step of the spec's backfill traversal, spelled out. -/
theorem backfillSpecGo_cons (stdf : List ℚ → ℚ) (prev : Option CandleBucket)
    (cb : CandleBucket) (rest : List CandleBucket) :
    backfillSpecGo stdf prev (cb :: rest) =
      if cb.candles.length = 0 then
        match prev with
        | some p =>
          compileBucket stdf cb.timestampISO p.candles true ::
            backfillSpecGo stdf prev rest
        | none => backfillSpecGo stdf prev rest
      else
        compileBucket stdf cb.timestampISO cb.candles false ::
          backfillSpecGo stdf (some cb) rest := rfl

/-- The index-driven bucket loop from any position agrees with the spec's
accumulator traversal of the remaining buckets. -/
theorem processorGo_eq_aux (stdf : List ℚ → ℚ) (cbs : List CandleBucket) :
    ∀ n i, cbs.length - i ≤ n →
      processorGo stdf cbs i =
        backfillSpecGo stdf (lastNonempty cbs i) (cbs.drop i) := by
  intro n
  induction n with
  | zero =>
    intro i hle
    have hge : cbs.length ≤ i := by omega
    rw [processorGo, dif_neg (by omega), List.drop_eq_nil_of_le hge]
    rfl
  | succ n ih =>
    intro i hle
    by_cases hi : i < cbs.length
    · have hdrop : cbs.drop i = cbs[i] :: cbs.drop (i + 1) :=
        List.drop_eq_getElem_cons hi
      have hrec := ih (i + 1) (by omega)
      rw [processorGo, dif_pos hi, hdrop]
      simp only [List.get_eq_getElem]
      by_cases hempty : cbs[i].candles.length = 0
      · have hstay : lastNonempty cbs (i + 1) = lastNonempty cbs i := by
          rw [lastNonempty_succ cbs i hi, if_neg (by omega)]
        have hfp : findPrev cbs i = lastNonempty cbs i := by
          rw [findPrev_eq_lastNonempty cbs i hi, hstay]
        rw [hstay] at hrec
        rw [if_pos hempty, hfp]
        conv_rhs => rw [backfillSpecGo_cons]
        rw [if_pos hempty]
        rw [hrec]
        cases hprev : lastNonempty cbs i with
        | none => rfl
        | some p =>
          have hpne : 0 < p.candles.length := by
            unfold lastNonempty at hprev
            have := List.find?_some hprev
            simpa using this
          dsimp only
          rw [if_pos hpne]
      · have hpos : 0 < cbs[i].candles.length := Nat.pos_of_ne_zero hempty
        have hsucc : lastNonempty cbs (i + 1) = some cbs[i] := by
          rw [lastNonempty_succ cbs i hi, if_pos hpos]
        rw [if_neg hempty]
        conv_rhs => rw [backfillSpecGo_cons]
        rw [if_neg hempty, hrec, hsucc]
    · have hge : cbs.length ≤ i := by omega
      rw [processorGo, dif_neg (by omega), List.drop_eq_nil_of_le hge]
      rfl

/-- C6: the bucket processor equals the spec's backfill traversal — a bucket
with candles is compiled from its own candle set, a zero-candle bucket
copies the candle set of the nearest earlier non-empty bucket, and a
zero-candle bucket with no earlier non-empty bucket is omitted from the
output entirely; a backfilled bucket carries `dataPoints = 1` while a
non-backfilled bucket's `dataPoints` is its own candle count. -/
theorem candleProcessor_backfill (stdf : List ℚ → ℚ)
    (cbs : List CandleBucket) (ts : Nat) (cs : List SimpleCandle) :
    candleProcessor stdf cbs = candleProcessorSpec stdf cbs ∧
    (compileBucket stdf ts cs false).dataPoints = cs.length ∧
    (cs ≠ [] → (compileBucket stdf ts cs true).dataPoints = 1) := by
  refine ⟨?_, ?_, ?_⟩
  · unfold candleProcessor candleProcessorSpec
    have h := processorGo_eq_aux stdf cbs cbs.length 0 (by omega)
    rw [h, lastNonempty_zero, List.drop_zero]
  · cases cs with
    | nil => rfl
    | cons c rest => simp [compileBucket]
  · intro hne
    cases cs with
    | nil => exact absurd rfl hne
    | cons c rest => simp [compileBucket]

end Coeus
